/-
Verification of the classic-arcade-pygame repository against its
natural-language specification.

Each Python module relevant to a claim is shallowly embedded: pure logic
becomes Lean functions, mutable state becomes explicit state passing,
Python ints become ℤ (or ℕ where the source value is a count), Python
floats become ℚ, and the random module is modelled as an explicit stream
of naturals consumed through `randrange`.
-/
import Mathlib

set_option maxRecDepth 4000

namespace Arcade

/-! ## scores.py

`load_scores` / `save_score` operate on the JSON high-score file.  The
persisted mapping is embedded as an association list with Python-dict
semantics (at most one binding per key; `dictSet` overwrites in place or
appends).  A Python value passed as `new_score` is either a number
(embedded in ℚ) or some non-numeric value, which `isinstance` rejects. -/

abbrev ScoreMap := List (String × ℚ)

/-- `scores.get(k, d)` on the embedded dict: the binding of the first
occurrence of `k`, else the default. -/
def dictGet (m : ScoreMap) (k : String) (d : ℚ) : ℚ :=
  match m with
  | [] => d
  | p :: t => if p.1 = k then p.2 else dictGet t k d

/-- `scores[k] = v` on the embedded dict: overwrite the binding of `k`
in place when present, append it otherwise. -/
def dictSet (m : ScoreMap) (k : String) (v : ℚ) : ScoreMap :=
  match m with
  | [] => [(k, v)]
  | p :: t => if p.1 = k then (k, v) :: t else p :: dictSet t k v

/-- The state of the high-score file as `load_scores` can observe it. -/
inductive FileState where
  | missing
  | unreadable
  | malformed
  | valid (m : ScoreMap)
deriving DecidableEq

/-- Result of a Python call: either a returned value or a propagated
exception. -/
inductive PyResult (α : Type) where
  | ok (a : α)
  | raised
deriving DecidableEq

/-- `scores.load_scores()`: `{}` when the file is missing, unreadable
(`IOError`) or not JSON (`json.JSONDecodeError`), the parsed mapping
otherwise.  Both exception types are caught, so no call raises. -/
def load_scores : FileState → PyResult ScoreMap
  | .missing => .ok []
  | .unreadable => .ok []
  | .malformed => .ok []
  | .valid m => .ok m

/-- A Python value passed to `save_score` as `new_score`: a number, or
anything `isinstance(new_score, (int, float))` rejects. -/
inductive PyScore where
  | num (q : ℚ)
  | nonNum
deriving DecidableEq

/-- `scores.save_score(game_name, new_score)` acting on the stored
mapping.  Mirrors the source: reject non-numeric and `new_score <= 0`,
then write back only when `new_score > scores.get(game_name, 0)`. -/
def save_score (stored : ScoreMap) (game_name : String) (new_score : PyScore) : ScoreMap :=
  match new_score with
  | .nonNum => stored
  | .num q =>
    if q ≤ 0 then stored
    else
      let scores := stored
      let current_high_score := dictGet scores game_name 0
      if q > current_high_score then dictSet scores game_name q
      else scores

theorem dictGet_dictSet_self (m : ScoreMap) (k : String) (v d : ℚ) :
    dictGet (dictSet m k v) k d = v := by
  induction m with
  | nil => simp [dictGet, dictSet]
  | cons p t ih =>
    by_cases hp : p.1 = k
    · simp [dictGet, dictSet, hp]
    · simp [dictGet, dictSet, hp, ih]

theorem dictGet_dictSet_ne (m : ScoreMap) (k k' : String) (v d : ℚ)
    (hne : k' ≠ k) : dictGet (dictSet m k v) k' d = dictGet m k' d := by
  induction m with
  | nil =>
    have : k ≠ k' := fun hk => hne hk.symm
    simp [dictGet, dictSet, this]
  | cons p t ih =>
    by_cases hp : p.1 = k
    · have h1 : k ≠ k' := fun hk => hne hk.symm
      have h2 : ¬ p.1 = k' := by rw [hp]; exact h1
      simp [dictGet, dictSet, hp, h1, h2]
    · by_cases hp' : p.1 = k'
      · simp [dictGet, dictSet, hp, hp', hne]
      · simp [dictGet, dictSet, hp, hp', ih]

/-- **C1.** Per game name the stored high score never decreases under
`save_score`; all other names keep their value; and a non-numeric, zero,
negative, or not-strictly-greater `new_score` leaves the mapping
unchanged. -/
theorem save_score_monotone_and_frame (stored : ScoreMap) (game_name : String)
    (new_score : PyScore) :
    dictGet stored game_name 0 ≤ dictGet (save_score stored game_name new_score) game_name 0
    ∧ (∀ k d, k ≠ game_name →
        dictGet (save_score stored game_name new_score) k d = dictGet stored k d)
    ∧ (new_score = .nonNum → save_score stored game_name new_score = stored)
    ∧ (∀ q, new_score = .num q → q ≤ 0 → save_score stored game_name new_score = stored)
    ∧ (∀ q, new_score = .num q → q ≤ dictGet stored game_name 0 →
        save_score stored game_name new_score = stored) := by
  refine ⟨?_, ?_, ?_, ?_, ?_⟩
  · cases new_score with
    | nonNum => simp [save_score]
    | num q =>
      unfold save_score
      by_cases h0 : q ≤ 0
      · simp [h0]
      · simp only [if_neg h0]
        by_cases hh : q > dictGet stored game_name 0
        · simp only [if_pos hh, dictGet_dictSet_self]
          exact le_of_lt hh
        · simp [hh]
  · intro k d hk
    cases new_score with
    | nonNum => simp [save_score]
    | num q =>
      unfold save_score
      by_cases h0 : q ≤ 0
      · simp [h0]
      · simp only [if_neg h0]
        by_cases hh : q > dictGet stored game_name 0
        · simp only [if_pos hh]
          exact dictGet_dictSet_ne stored game_name k q d hk
        · simp [hh]
  · intro h
    subst h
    rfl
  · intro q hq h0
    subst hq
    simp [save_score, h0]
  · intro q hq hle
    subst hq
    unfold save_score
    by_cases h0 : q ≤ 0
    · simp [h0]
    · simp only [if_neg h0]
      have : ¬ q > dictGet stored game_name 0 := not_lt.mpr hle
      simp [this]

/-- Witness for C1 at a concrete mapping, game name and score. -/
theorem save_score_monotone_and_frame_witness :
    dictGet [("Snake", (5 : ℚ))] "Snake" 0
      ≤ dictGet (save_score [("Snake", (5 : ℚ))] "Snake" (.num 7)) "Snake" 0
    ∧ dictGet (save_score [("Snake", (5 : ℚ))] "Snake" (.num 7)) "Pong" 0
        = dictGet [("Snake", (5 : ℚ))] "Pong" 0
    ∧ save_score [("Snake", (5 : ℚ))] "Snake" .nonNum = [("Snake", (5 : ℚ))]
    ∧ save_score [("Snake", (5 : ℚ))] "Snake" (.num (-1)) = [("Snake", (5 : ℚ))]
    ∧ save_score [("Snake", (5 : ℚ))] "Snake" (.num 4) = [("Snake", (5 : ℚ))] := by
  obtain ⟨h1, h2, h3, h4, h5⟩ :=
    save_score_monotone_and_frame [("Snake", (5 : ℚ))] "Snake" (.num 7)
  refine ⟨h1, h2 "Pong" 0 (by decide), ?_, ?_, ?_⟩
  · exact (save_score_monotone_and_frame [("Snake", (5 : ℚ))] "Snake" .nonNum).2.2.1 rfl
  · exact (save_score_monotone_and_frame [("Snake", (5 : ℚ))] "Snake"
      (.num (-1))).2.2.2.1 (-1) rfl (by norm_num)
  · exact (save_score_monotone_and_frame [("Snake", (5 : ℚ))] "Snake"
      (.num 4)).2.2.2.2 4 rfl (by norm_num [dictGet])

/-- **C4.** `load_scores` returns `{}` when the file is missing,
unreadable or malformed, the parsed mapping otherwise, and never raises. -/
theorem load_scores_total (fs : FileState) :
    (fs = .missing ∨ fs = .unreadable ∨ fs = .malformed → load_scores fs = .ok [])
    ∧ (∀ m, fs = .valid m → load_scores fs = .ok m)
    ∧ ∃ m, load_scores fs = .ok m := by
  refine ⟨?_, ?_, ?_⟩
  · rintro (rfl | rfl | rfl) <;> rfl
  · rintro m rfl
    rfl
  · cases fs with
    | missing => exact ⟨[], rfl⟩
    | unreadable => exact ⟨[], rfl⟩
    | malformed => exact ⟨[], rfl⟩
    | valid m => exact ⟨m, rfl⟩

/-- Witness for C4 at concrete file states. -/
theorem load_scores_total_witness :
    load_scores .malformed = .ok []
    ∧ load_scores (.valid [("Pong", (3 : ℚ))]) = .ok [("Pong", (3 : ℚ))] := by
  refine ⟨?_, ?_⟩
  · exact (load_scores_total .malformed).1 (Or.inr (Or.inr rfl))
  · exact (load_scores_total (.valid [("Pong", (3 : ℚ))])).2.1 _ rfl

/-! ## snake_game.py

The Snake game plays on a 30×30 grid (600×600 pixels, 20-pixel cells).
The body of `game_loop`'s `while` loop is embedded as `snakeTick`; the
initialisation at the top of `game_loop` as `snakeInit`.  The random
module is an explicit stream `rng : ℕ → ℕ` consumed via `randrange`,
which models `random.randrange(lo, hi)`: a value in `[lo, hi)`. -/

namespace Snake

def SCREEN_WIDTH : ℤ := 600

def SCREEN_HEIGHT : ℤ := 600

def CELL_SIZE : ℤ := 20

def GRID_WIDTH : ℤ := SCREEN_WIDTH / CELL_SIZE

def GRID_HEIGHT : ℤ := SCREEN_HEIGHT / CELL_SIZE

/-- `random.randrange(lo, hi)` on one draw `r` of the random stream:
some value in `[lo, hi)` (here `lo + r % (hi - lo)`). -/
def randrange (lo hi : ℤ) (r : ℕ) : ℤ := lo + (r : ℤ) % (hi - lo)

inductive Dir where
  | UP
  | DOWN
  | LEFT
  | RIGHT
deriving DecidableEq

/-- The mutable locals of `game_loop` (plus the random stream). -/
structure State where
  pos : ℤ × ℤ
  body : List (ℤ × ℤ)
  dir : Dir
  score : ℕ
  food : ℤ × ℤ
  rng : ℕ → ℕ
  rngIdx : ℕ

/-- One `KEYDOWN` event: `change_to` is updated only when the pressed
key is not opposite to the current `direction`. -/
def dirStep (direction ct : Dir) (key : Dir) : Dir :=
  match key with
  | .UP => if direction ≠ .DOWN then .UP else ct
  | .DOWN => if direction ≠ .UP then .DOWN else ct
  | .LEFT => if direction ≠ .RIGHT then .LEFT else ct
  | .RIGHT => if direction ≠ .LEFT then .RIGHT else ct

/-- Per-tick displacement of the head for each direction. -/
def moveDelta : Dir → ℤ × ℤ
  | .UP => (0, -1)
  | .DOWN => (0, 1)
  | .LEFT => (-1, 0)
  | .RIGHT => (1, 0)

def inBounds (c : ℤ × ℤ) : Prop :=
  0 ≤ c.1 ∧ c.1 < GRID_WIDTH ∧ 0 ≤ c.2 ∧ c.2 < GRID_HEIGHT

instance : DecidablePred inBounds := fun c => by
  unfold inBounds
  infer_instance

/-- The game-over conditions checked at the end of a tick: head outside
the grid, or head equal to some later body segment (`snake_body[1:]`). -/
def gameOver (s : State) : Prop :=
  ¬ inBounds s.pos ∨ s.pos ∈ s.body.tail

instance : DecidablePred gameOver := fun s => by
  unfold gameOver
  infer_instance

/-- The value of `direction` after the tick's event handling and the
`direction = change_to` assignment. -/
def effDir (s : State) (keys : List Dir) : Dir :=
  keys.foldl (fun ct k => dirStep s.dir ct k) s.dir

/-- One iteration of `game_loop`'s `while` loop: process the tick's
`KEYDOWN` events, move the head one cell, insert it at the front of the
body, then either eat the food (grow, draw new food) or pop the tail.
The second component is whether a game-over condition fired. -/
def snakeTick (s : State) (keys : List Dir) : State × Bool :=
  let direction := effDir s keys
  let d := moveDelta direction
  let pos : ℤ × ℤ := (s.pos.1 + d.1, s.pos.2 + d.2)
  let inserted := pos :: s.body
  let s' :=
    if pos.1 = s.food.1 ∧ pos.2 = s.food.2 then
      { pos := pos, body := inserted, dir := direction, score := s.score + 1,
        food := (randrange 1 GRID_WIDTH (s.rng s.rngIdx),
                 randrange 1 GRID_HEIGHT (s.rng (s.rngIdx + 1))),
        rng := s.rng, rngIdx := s.rngIdx + 2 }
    else
      { pos := pos, body := inserted.dropLast, dir := direction, score := s.score,
        food := s.food, rng := s.rng, rngIdx := s.rngIdx }
  (s', decide (gameOver s'))

/-- The initialisation at the top of `game_loop`. -/
def snakeInit (rng : ℕ → ℕ) : State :=
  let pos : ℤ × ℤ := (GRID_WIDTH / 2, GRID_HEIGHT / 2)
  { pos := pos
    body := [pos, (pos.1 - 1, pos.2), (pos.1 - 2, pos.2)]
    dir := .RIGHT
    score := 0
    food := (randrange 1 GRID_WIDTH (rng 0), randrange 1 GRID_HEIGHT (rng 1))
    rng := rng
    rngIdx := 2 }

/-- States of `game_loop` reachable after the per-tick update
(including ticks on which a game-over condition fired: the loop body
updates the state, draws it, and only then checks the conditions). -/
inductive Reachable : State → Prop where
  | init (rng : ℕ → ℕ) : Reachable (snakeInit rng)
  | step (s : State) (keys : List Dir) : Reachable s → Reachable (snakeTick s keys).1

/-- States reachable through ticks none of which fired a game-over
condition. -/
inductive ReachableAlive : State → Prop where
  | init (rng : ℕ → ℕ) : ReachableAlive (snakeInit rng)
  | step (s : State) (keys : List Dir) : ReachableAlive s →
      (snakeTick s keys).2 = false → ReachableAlive (snakeTick s keys).1

/-- Iterated ticks with no key presses. -/
def iterTicks (s : State) : ℕ → State
  | 0 => s
  | n + 1 => (snakeTick (iterTicks s n) []).1

theorem reachable_iterTicks (s : State) (h : Reachable s) :
    ∀ n, Reachable (iterTicks s n) := by
  intro n
  induction n with
  | zero => exact h
  | succ n ih => exact Reachable.step _ [] ih

theorem randrange_mem (lo hi : ℤ) (r : ℕ) (h : lo < hi) :
    lo ≤ randrange lo hi r ∧ randrange lo hi r ≤ hi - 1 := by
  unfold randrange
  have hpos : 0 < hi - lo := by omega
  have h1 : 0 ≤ (r : ℤ) % (hi - lo) := Int.emod_nonneg _ (by omega)
  have h2 : (r : ℤ) % (hi - lo) < hi - lo := Int.emod_lt_of_pos _ hpos
  omega

theorem snakeTick_pos_eq (s : State) (keys : List Dir) :
    (snakeTick s keys).1.pos
      = (s.pos.1 + (moveDelta (effDir s keys)).1, s.pos.2 + (moveDelta (effDir s keys)).2) := by
  by_cases h : s.pos.1 + (moveDelta (effDir s keys)).1 = s.food.1
      ∧ s.pos.2 + (moveDelta (effDir s keys)).2 = s.food.2 <;>
    simp [snakeTick, h]

theorem snakeTick_food_iff (s : State) (keys : List Dir) :
    (snakeTick s keys).1.pos = s.food
      ↔ (s.pos.1 + (moveDelta (effDir s keys)).1 = s.food.1
          ∧ s.pos.2 + (moveDelta (effDir s keys)).2 = s.food.2) := by
  rw [snakeTick_pos_eq, Prod.ext_iff]

theorem snakeTick_cases (s : State) (keys : List Dir) :
    ((snakeTick s keys).1.pos
      = (s.pos.1 + (moveDelta (effDir s keys)).1, s.pos.2 + (moveDelta (effDir s keys)).2))
    ∧ (snakeTick s keys).1.dir = effDir s keys
    ∧ ((snakeTick s keys).1.pos = s.food →
        (snakeTick s keys).1.body = (snakeTick s keys).1.pos :: s.body
        ∧ (snakeTick s keys).1.score = s.score + 1)
    ∧ ((snakeTick s keys).1.pos ≠ s.food →
        (snakeTick s keys).1.body = ((snakeTick s keys).1.pos :: s.body).dropLast
        ∧ (snakeTick s keys).1.score = s.score
        ∧ (snakeTick s keys).1.food = s.food) := by
  refine ⟨snakeTick_pos_eq s keys, ?_, fun heq => ?_, fun hne => ?_⟩
  · by_cases h : s.pos.1 + (moveDelta (effDir s keys)).1 = s.food.1
        ∧ s.pos.2 + (moveDelta (effDir s keys)).2 = s.food.2 <;>
      simp [snakeTick, h]
  · have h := (snakeTick_food_iff s keys).mp heq
    rw [snakeTick_pos_eq]
    constructor
    · simp [snakeTick, h]
    · simp [snakeTick, h]
  · have h : ¬ (s.pos.1 + (moveDelta (effDir s keys)).1 = s.food.1
        ∧ s.pos.2 + (moveDelta (effDir s keys)).2 = s.food.2) :=
      fun hc => hne ((snakeTick_food_iff s keys).mpr hc)
    rw [snakeTick_pos_eq]
    refine ⟨?_, ?_, ?_⟩
    · simp [snakeTick, h]
    · simp [snakeTick, h]
    · simp [snakeTick, h]

/-- **C5.** Each tick moves the head exactly one cell along the current
direction (one coordinate changes by ±1, the other is unchanged), the
new head is prepended to the body, and the tail is popped unless the new
head is on the food, so the body grows by one exactly on eating. -/
theorem snake_moves_one_cell_per_tick (s : State) (keys : List Dir) :
    ((snakeTick s keys).1.pos
      = (s.pos.1 + (moveDelta (effDir s keys)).1, s.pos.2 + (moveDelta (effDir s keys)).2))
    ∧ |(moveDelta (effDir s keys)).1| + |(moveDelta (effDir s keys)).2| = 1
    ∧ (s.body ≠ [] → (snakeTick s keys).1.body.head? = some (snakeTick s keys).1.pos)
    ∧ ((snakeTick s keys).1.pos = s.food →
        (snakeTick s keys).1.body = (snakeTick s keys).1.pos :: s.body
        ∧ (snakeTick s keys).1.body.length = s.body.length + 1)
    ∧ ((snakeTick s keys).1.pos ≠ s.food →
        (snakeTick s keys).1.body = ((snakeTick s keys).1.pos :: s.body).dropLast
        ∧ (snakeTick s keys).1.body.length = s.body.length) := by
  obtain ⟨hpos, hdir, heat, hmiss⟩ := snakeTick_cases s keys
  refine ⟨hpos, ?_, ?_, fun heq => ⟨(heat heq).1, ?_⟩, fun hne => ⟨(hmiss hne).1, ?_⟩⟩
  · cases effDir s keys <;> simp [moveDelta]
  · intro hbody
    by_cases heq : (snakeTick s keys).1.pos = s.food
    · rw [(heat heq).1]
      rfl
    · rw [(hmiss heq).1]
      cases hb : s.body with
      | nil => exact absurd hb hbody
      | cons b t => simp
  · rw [(heat heq).1]
    simp
  · rw [(hmiss hne).1]
    simp

/-- Witness for C5 at a concrete state and key list. -/
theorem snake_moves_one_cell_per_tick_witness :
    ((snakeTick (snakeInit (fun _ => 0)) [.UP]).1.body.head?
      = some (snakeTick (snakeInit (fun _ => 0)) [.UP]).1.pos)
    ∧ (snakeTick (snakeInit (fun _ => 0)) [.UP]).1.body.length
      = (snakeInit (fun _ => 0)).body.length := by
  obtain ⟨-, -, hhead, -, hmiss⟩ :=
    snake_moves_one_cell_per_tick (snakeInit (fun _ => 0)) [.UP]
  exact ⟨hhead (by decide), (hmiss (by decide)).2⟩

/-- The food bounds asserted by C10. -/
def FoodOk (s : State) : Prop :=
  1 ≤ s.food.1 ∧ s.food.1 ≤ GRID_WIDTH - 1 ∧ 1 ≤ s.food.2 ∧ s.food.2 ≤ GRID_HEIGHT - 1

/-- **C10.** Every food position ever generated comes from
`randrange(1, GRID_WIDTH) × randrange(1, GRID_HEIGHT)`, so in every
reachable state `1 ≤ food.x ≤ GRID_WIDTH - 1` and
`1 ≤ food.y ≤ GRID_HEIGHT - 1`: the food never lies in column 0 or
row 0. -/
theorem snake_food_never_on_edge (s : State) (h : Reachable s) : FoodOk s := by
  induction h with
  | init rng =>
    have h1 := randrange_mem 1 GRID_WIDTH (rng 0) (by decide)
    have h2 := randrange_mem 1 GRID_HEIGHT (rng 1) (by decide)
    exact ⟨h1.1, h1.2, h2.1, h2.2⟩
  | step s keys _ ih =>
    by_cases hcond : s.pos.1 + (moveDelta (effDir s keys)).1 = s.food.1
        ∧ s.pos.2 + (moveDelta (effDir s keys)).2 = s.food.2
    · have h1 := randrange_mem 1 GRID_WIDTH (s.rng s.rngIdx) (by decide)
      have h2 := randrange_mem 1 GRID_HEIGHT (s.rng (s.rngIdx + 1)) (by decide)
      unfold FoodOk
      simp only [snakeTick, hcond, if_pos]
      exact ⟨h1.1, h1.2, h2.1, h2.2⟩
    · unfold FoodOk
      simp only [snakeTick, hcond, if_false]
      exact ih

/-- Witness for C10 at a concrete reachable state. -/
theorem snake_food_never_on_edge_witness : FoodOk (snakeInit (fun _ => 0)) :=
  snake_food_never_on_edge _ (Reachable.init _)

theorem snake_alive_in_bounds (s : State) (h : ReachableAlive s) :
    ∀ c ∈ s.body, inBounds c := by
  induction h with
  | init rng =>
    intro c hc
    simp only [snakeInit, List.mem_cons, List.mem_singleton] at hc
    rcases hc with rfl | rfl | rfl | h
    · exact (by decide : inBounds (GRID_WIDTH / 2, GRID_HEIGHT / 2))
    · exact (by decide : inBounds (GRID_WIDTH / 2 - 1, GRID_HEIGHT / 2))
    · exact (by decide : inBounds (GRID_WIDTH / 2 - 2, GRID_HEIGHT / 2))
    · exact absurd h (List.not_mem_nil c)
  | step s keys _ halive ih =>
    intro c hc
    have hno : ¬ gameOver (snakeTick s keys).1 := by
      have := halive
      simp only [snakeTick] at this ⊢
      exact of_decide_eq_false this
    have hhead : inBounds (snakeTick s keys).1.pos := by
      rcases not_or.mp hno with ⟨hnb, -⟩
      exact not_not.mp hnb
    obtain ⟨-, -, heat, hmiss⟩ := snakeTick_cases s keys
    by_cases heq : (snakeTick s keys).1.pos = s.food
    · rw [(heat heq).1] at hc
      rcases List.mem_cons.mp hc with rfl | hmem
      · exact hhead
      · exact ih c hmem
    · rw [(hmiss heq).1] at hc
      have hc' := List.dropLast_subset _ hc
      rcases List.mem_cons.mp hc' with rfl | hmem
      · exact hhead
      · exact ih c hmem

/-- C2 as stated fails on the code: from the initial state, 15 key-free
ticks drive the head to `x = GRID_WIDTH`; the head cell inserted by that
tick's move is outside the grid, yet the state is a reachable state of
the update step (it is even drawn before the boundary check fires). -/
theorem snake_head_leaves_grid_counterexample :
    Reachable (iterTicks (snakeInit (fun _ => 0)) 15)
    ∧ (iterTicks (snakeInit (fun _ => 0)) 15).pos
        ∈ (iterTicks (snakeInit (fun _ => 0)) 15).body
    ∧ (iterTicks (snakeInit (fun _ => 0)) 15).pos = (GRID_WIDTH, GRID_HEIGHT / 2)
    ∧ ¬ inBounds (iterTicks (snakeInit (fun _ => 0)) 15).pos := by
  refine ⟨reachable_iterTicks _ (Reachable.init _) 15, ?_, ?_, ?_⟩
  · decide
  · decide
  · decide

/-- Re-entering `game_loop` for a new Snake game: the initialisation at
the top of `game_loop` reads no previous game state, only the random
stream. -/
def snakeRestart (prev : State) (rng : ℕ → ℕ) : State := snakeInit rng

end Snake

/-! ## pong.py

Paddle positions are `pygame.Rect` integer coordinates; ball speeds are
Python floats, embedded in ℚ.  The per-frame paddle updates and the
ball-speed updates of `game_loop` are embedded below; the collision and
scoring predicates of a frame (which depend on the drawn geometry) enter
as the booleans `wallHit`/`paddleHit` and the optional scoring reset with
its two `random.choice((1, -1))` draws. -/

namespace Pong

def SCREEN_WIDTH : ℤ := 800

def SCREEN_HEIGHT : ℤ := 600

def PADDLE_WIDTH : ℤ := 15

def PADDLE_HEIGHT : ℤ := 100

def PADDLE_SPEED : ℤ := 7

def AI_PADDLE_SPEED : ℤ := 6

/-- The player paddle's `y` after one frame: move by the pressed keys,
then `max(0, min(y, SCREEN_HEIGHT - PADDLE_HEIGHT))`. -/
def playerPaddleFrameY (y : ℤ) (keyUp keyDown : Bool) : ℤ :=
  let y1 := if keyUp then y - PADDLE_SPEED else y
  let y2 := if keyDown then y1 + PADDLE_SPEED else y1
  max 0 (min y2 (SCREEN_HEIGHT - PADDLE_HEIGHT))

/-- The AI paddle's `y` after one frame.  As in the source, the second
comparison re-reads `ai_paddle.centery` after the first move; the centre
is `y + PADDLE_HEIGHT / 2` (integer division of `pygame.Rect`). -/
def aiPaddleFrameY (y ballCenterY : ℤ) : ℤ :=
  let y1 := if y + PADDLE_HEIGHT / 2 < ballCenterY then y + AI_PADDLE_SPEED else y
  let y2 := if ballCenterY < y1 + PADDLE_HEIGHT / 2 then y1 - AI_PADDLE_SPEED else y1
  max 0 (min y2 (SCREEN_HEIGHT - PADDLE_HEIGHT))

/-- The ball-speed pair `(ball_speed_x, ball_speed_y)` after one frame:
wall bounce (`*= -1` on `y`), then paddle hit (`*= -1.1` on `x`,
`*= 1.1` on `y`), then a scoring reset to `7 * random.choice((1, -1))`
on both components when the ball left the field. -/
def speedFrame (v : ℚ × ℚ) (wallHit paddleHit : Bool)
    (score : Option (Bool × Bool)) : ℚ × ℚ :=
  let vy1 := if wallHit then v.2 * (-1) else v.2
  let v2 : ℚ × ℚ := if paddleHit then (v.1 * (-1.1), vy1 * 1.1) else (v.1, vy1)
  match score with
  | some (sx, sy) => (7 * (if sx then 1 else -1), 7 * (if sy then 1 else -1))
  | none => v2

/-- Ball speeds reachable in `game_loop`: initialised to
`7 * random.choice((1, -1))` on both axes and updated once per frame. -/
inductive SpeedReachable : ℚ × ℚ → Prop where
  | init (sx sy : Bool) :
      SpeedReachable (7 * (if sx then 1 else -1), 7 * (if sy then 1 else -1))
  | step (v : ℚ × ℚ) (wallHit paddleHit : Bool) (score : Option (Bool × Bool)) :
      SpeedReachable v → SpeedReachable (speedFrame v wallHit paddleHit score)

theorem speedReachable_ne_zero (v : ℚ × ℚ) (h : SpeedReachable v) :
    v.1 ≠ 0 ∧ v.2 ≠ 0 := by
  induction h with
  | init sx sy => cases sx <;> cases sy <;> norm_num
  | step w wallHit paddleHit score hw ih =>
    obtain ⟨hx, hy⟩ := ih
    rcases score with - | ⟨sx, sy⟩
    · unfold speedFrame
      cases wallHit <;> cases paddleHit <;>
        simp only [if_true, if_false] <;>
        constructor <;>
        first
          | assumption
          | exact mul_ne_zero hx (by norm_num)
          | exact mul_ne_zero hy (by norm_num)
          | exact mul_ne_zero (mul_ne_zero hy (by norm_num)) (by norm_num)
    · unfold speedFrame
      cases sx <;> cases sy <;> norm_num

/-- **C6.** On a paddle-hit frame the horizontal speed is multiplied by
`-1.1` and the (post-wall-bounce) vertical speed by `1.1`, so both
magnitudes strictly increase (speeds are never zero in reachable
states) and the vertical sign is unchanged by the hit; a wall hit alone
negates the vertical speed and changes no magnitude. -/
theorem pong_speed_up_on_hit (v : ℚ × ℚ) (h : SpeedReachable v) (wallHit : Bool) :
    (speedFrame v wallHit true none
      = (v.1 * (-1.1), (if wallHit then v.2 * (-1) else v.2) * 1.1))
    ∧ |(speedFrame v wallHit true none).1| > |v.1|
    ∧ |(speedFrame v wallHit true none).2| > |v.2|
    ∧ (0 < (speedFrame v wallHit true none).2
        ↔ 0 < (if wallHit then v.2 * (-1) else v.2))
    ∧ speedFrame v false false none = v
    ∧ speedFrame v true false none = (v.1, v.2 * (-1))
    ∧ |v.2 * (-1)| = |v.2| := by
  obtain ⟨hx, hy⟩ := speedReachable_ne_zero v h
  have heq : speedFrame v wallHit true none
      = (v.1 * (-1.1), (if wallHit then v.2 * (-1) else v.2) * 1.1) := by
    cases wallHit <;> simp [speedFrame]
  have hvy1 : |(if wallHit then v.2 * (-1) else v.2)| = |v.2| := by
    cases wallHit <;> simp [abs_mul]
  have habs : |(-1.1 : ℚ)| = 1.1 := by norm_num
  have habs2 : |(1.1 : ℚ)| = 1.1 := by norm_num
  refine ⟨heq, ?_, ?_, ?_, ?_, ?_, ?_⟩
  · rw [heq]
    have h0 : 0 < |v.1| := abs_pos.mpr hx
    calc |((v.1 * (-1.1), (if wallHit then v.2 * (-1) else v.2) * 1.1)).1|
        = |v.1| * 1.1 := by rw [abs_mul] at *; simp [habs]
      _ > |v.1| := by nlinarith
  · rw [heq]
    have h0 : 0 < |v.2| := abs_pos.mpr hy
    calc |((v.1 * (-1.1), (if wallHit then v.2 * (-1) else v.2) * 1.1)).2|
        = |v.2| * 1.1 := by
          show |(if wallHit then v.2 * (-1) else v.2) * 1.1| = |v.2| * 1.1
          rw [abs_mul, hvy1, habs2]
      _ > |v.2| := by nlinarith
  · rw [heq]
    show 0 < (if wallHit then v.2 * (-1) else v.2) * 1.1 ↔ _
    constructor
    · intro hp
      nlinarith
    · intro hp
      nlinarith
  · simp [speedFrame]
  · simp [speedFrame]
  · simp [abs_mul]

/-- Witness for C6 at the initial speed `(7, 7)` and a paddle-hit
frame. -/
theorem pong_speed_up_on_hit_witness :
    speedFrame ((7 : ℚ), (7 : ℚ)) false true none = ((7 : ℚ) * (-1.1), (7 : ℚ) * 1.1)
    ∧ |(speedFrame ((7 : ℚ), (7 : ℚ)) false true none).1| > |(7 : ℚ)| := by
  have hreach : SpeedReachable ((7 : ℚ), (7 : ℚ)) := by
    have h := SpeedReachable.init true true
    norm_num at h
    exact h
  obtain ⟨h1, h2, -⟩ := pong_speed_up_on_hit ((7 : ℚ), (7 : ℚ)) hreach false
  refine ⟨?_, h2⟩
  rw [h1]
  norm_num

end Pong

/-! ## galaga.py

`pygame.Rect` coordinates are integers.  `Rect.clamp_ip(bound)` moves a
rectangle inside `bound`: an axis whose size is at least the bound's is
centred, otherwise the coordinate is pulled back to the nearer edge when
it overhangs.  Enemy flight paths are cubic Bézier curves sampled by
`generate_bezier_curve`; Python floats are embedded in ℚ. -/

namespace Galaga

def SCREEN_WIDTH : ℤ := 800

def SCREEN_HEIGHT : ℤ := 600

def PLAYER_SIZE : ℤ := 40

structure Rect where
  x : ℤ
  y : ℤ
  w : ℤ
  h : ℤ
deriving DecidableEq

/-- One axis of pygame's `Rect.clamp`: position `pos` of an extent of
size `size`, clamped into `[lo, lo + len)`; an oversized extent is
centred instead. -/
def clampAxis (pos size lo len : ℤ) : ℤ :=
  if size ≥ len then lo + len / 2 - size / 2
  else if pos < lo then lo
  else if pos + size > lo + len then lo + len - size
  else pos

/-- `rect.clamp_ip(bound)`. -/
def Rect.clampIn (r bound : Rect) : Rect :=
  { x := clampAxis r.x r.w bound.x bound.w
    y := clampAxis r.y r.h bound.y bound.h
    w := r.w
    h := r.h }

structure Player where
  rect : Rect
  lives : ℕ
  dual_fighter : Bool
  is_captured : Bool
  score : ℤ
  captured_by : Option ℕ
deriving DecidableEq

/-- The rectangle set by `Player.respawn`. -/
def Player.respawnRect : Rect :=
  ⟨SCREEN_WIDTH / 2 - PLAYER_SIZE / 2, SCREEN_HEIGHT - 60, PLAYER_SIZE, PLAYER_SIZE⟩

/-- `Player.__init__`: respawn, three lives, no dual fighter, not
captured, score zero. -/
def Player.init : Player :=
  { rect := Player.respawnRect
    lives := 3
    dual_fighter := false
    is_captured := false
    score := 0
    captured_by := none }

/-- `Player.move(dx)`: shift by `dx`, then
`rect.clamp_ip(pygame.Rect(0, 0, SCREEN_WIDTH, SCREEN_HEIGHT))`. -/
def Player.move (p : Player) (dx : ℤ) : Player :=
  let moved : Rect := { p.rect with x := p.rect.x + dx }
  let bound : Rect := Rect.mk 0 0 SCREEN_WIDTH SCREEN_HEIGHT
  { p with rect := Rect.clampIn moved bound }

/-- A captured fighter's mutable state (`CAPTURED`/`RESCUED` and the
step along its rescue path). -/
structure CapturedFighter where
  rescued : Bool
  rescue_step : ℕ
deriving DecidableEq

/-- The mutable state of `run_game`'s inner loop. -/
structure RunState where
  player : Player
  captured_fighters : List CapturedFighter
  current_level : ℕ
deriving DecidableEq

/-- The state with which `run_game` enters the inner loop after the
menu. -/
def newGameState : RunState :=
  { player := Player.init, captured_fighters := [], current_level := 1 }

/-- The state built by the `play_again` branch of `run_game` after game
over. -/
def playAgainState (prev : RunState) : RunState :=
  { player := Player.init, captured_fighters := [], current_level := 1 }

/-- One point of the cubic Bézier curve used for enemy flight paths. -/
def bezierPoint (p0 p1 p2 p3 : ℚ × ℚ) (t : ℚ) : ℚ × ℚ :=
  ((1 - t) ^ 3 * p0.1 + 3 * (1 - t) ^ 2 * t * p1.1
      + 3 * (1 - t) * t ^ 2 * p2.1 + t ^ 3 * p3.1,
   (1 - t) ^ 3 * p0.2 + 3 * (1 - t) ^ 2 * t * p1.2
      + 3 * (1 - t) * t ^ 2 * p2.2 + t ^ 3 * p3.2)

/-- `Enemy.generate_bezier_curve(p0, p1, p2, p3, num_points)`: the curve
sampled at `t = i / (num_points - 1)` for `i` in `range(num_points)`
(`t = 0` when `num_points <= 1`). -/
def generate_bezier_curve (p0 p1 p2 p3 : ℚ × ℚ) (num_points : ℕ) : List (ℚ × ℚ) :=
  (List.range num_points).map (fun (i : ℕ) =>
    let t : ℚ := if 1 < num_points then (i : ℚ) / ((num_points : ℚ) - 1) else 0
    bezierPoint p0 p1 p2 p3 t)

theorem bezierPoint_zero (p0 p1 p2 p3 : ℚ × ℚ) :
    bezierPoint p0 p1 p2 p3 0 = p0 := by
  rw [Prod.ext_iff]
  constructor <;> simp [bezierPoint]

theorem bezierPoint_one (p0 p1 p2 p3 : ℚ × ℚ) :
    bezierPoint p0 p1 p2 p3 1 = p3 := by
  rw [Prod.ext_iff]
  constructor <;> simp [bezierPoint]

end Galaga

/-! ## minesweeper.py

The board is a list of columns of `Cell`s, indexed `board[x][y]`.
`reveal_cells` mutates `is_revealed` recursively; the recursion is
embedded with an explicit fuel argument, and `reveal_cells` runs it with
fuel `unrevealedCount board + 1`, which `revealFuel_congr` below proves
sufficient (each recursive call strictly decreases the number of
unrevealed cells), i.e. the recursion terminates on every finite
well-formed board. -/

namespace Mine

structure Cell where
  is_mine : Bool
  is_revealed : Bool
  is_flagged : Bool
  adjacent_mines : ℕ
deriving DecidableEq

instance : Inhabited Cell := ⟨⟨false, false, false, 0⟩⟩

abbrev Board := List (List Cell)

/-- List lookup with an explicit default, as Python indexing never
leaves the list in the guarded source. -/
def getAt {α : Type} (d : α) : List α → ℕ → α
  | [], _ => d
  | a :: _, 0 => a
  | _ :: t, n + 1 => getAt d t n

/-- In-place update of one element, the embedding of mutating a list
slot. -/
def setAt {α : Type} : List α → ℕ → (α → α) → List α
  | [], _, _ => []
  | a :: t, 0, f => f a :: t
  | a :: t, n + 1, f => a :: setAt t n f

theorem length_setAt {α : Type} (l : List α) (i : ℕ) (f : α → α) :
    (setAt l i f).length = l.length := by
  induction l generalizing i with
  | nil => rfl
  | cons a t ih =>
    cases i with
    | zero => rfl
    | succ n => simp [setAt, ih]

theorem getAt_setAt {α : Type} (d : α) (l : List α) (i j : ℕ) (f : α → α) :
    getAt d (setAt l i f) j
      = if i = j ∧ j < l.length then f (getAt d l j) else getAt d l j := by
  induction l generalizing i j with
  | nil => simp [setAt, getAt]
  | cons a t ih =>
    cases i with
    | zero =>
      cases j with
      | zero => simp [setAt, getAt]
      | succ m => simp [setAt, getAt]
    | succ n =>
      cases j with
      | zero => simp [setAt, getAt]
      | succ m => simp [setAt, getAt, ih, Nat.succ_lt_succ_iff]

/-- `board[x][y]` for already-guarded nonnegative indices. -/
def cellAt (b : Board) (i j : ℕ) : Cell := getAt default (getAt [] b i) j

def getCell (b : Board) (x y : ℤ) : Cell := cellAt b x.toNat y.toNat

/-- `cell.is_revealed = True` -/
def revealCell (c : Cell) : Cell := { c with is_revealed := true }

/-- `board[x][y].is_revealed = True` -/
def setRevealed (b : Board) (x y : ℤ) : Board :=
  setAt b x.toNat (fun row => setAt row y.toNat revealCell)

/-- The `(dx, dy)` pairs of the neighbour loop, in source order. -/
def neighborOffsets : List (ℤ × ℤ) :=
  [(-1, -1), (-1, 0), (-1, 1), (0, -1), (0, 1), (1, -1), (1, 0), (1, 1)]

def rowUnrevealed (row : List Cell) : ℕ :=
  (row.filter (fun c => !c.is_revealed)).length

def unrevealedCount (b : Board) : ℕ := (b.map rowUnrevealed).sum

/-- `reveal_cells(board, x, y, grid_size)` with explicit recursion
fuel: bounds guard, early return on revealed or flagged, reveal, and
recursion into the eight neighbours when the cell has no adjacent mines
and is not a mine. -/
def revealFuel : ℕ → Board → ℤ → ℤ → ℤ → Board
  | 0, b, _, _, _ => b
  | f + 1, b, x, y, g =>
    if 0 ≤ x ∧ x < g ∧ 0 ≤ y ∧ y < g then
      let cell := getCell b x y
      if cell.is_revealed ∨ cell.is_flagged then b
      else
        let b1 := setRevealed b x y
        if cell.adjacent_mines = 0 ∧ cell.is_mine = false then
          neighborOffsets.foldl (fun bb d => revealFuel f bb (x + d.1) (y + d.2) g) b1
        else b1
    else b

/-- `reveal_cells` itself: the recursion run with provably sufficient
fuel. -/
def reveal_cells (b : Board) (x y g : ℤ) : Board :=
  revealFuel (unrevealedCount b + 1) b x y g

/-- A `grid_size × grid_size` board, as `create_board` builds it. -/
def WF (b : Board) (g : ℤ) : Prop :=
  b.length = g.toNat ∧ ∀ i, i < b.length → (getAt [] b i).length = g.toNat

theorem rowUnrevealed_setAt_le (row : List Cell) (j : ℕ) :
    rowUnrevealed (setAt row j revealCell) ≤ rowUnrevealed row := by
  induction row generalizing j with
  | nil => exact le_rfl
  | cons c t ih =>
    cases j with
    | zero =>
      cases hc : c.is_revealed with
      | false =>
        simp only [setAt, rowUnrevealed, List.filter_cons, revealCell, hc]
        simp only [Bool.not_false, Bool.not_true, if_true, if_false]
        simp
      | true =>
        simp only [setAt, rowUnrevealed, List.filter_cons, revealCell, hc]
        simp
    | succ m =>
      cases hc : c.is_revealed with
      | false =>
        simp only [setAt, rowUnrevealed, List.filter_cons, hc] at *
        simpa using ih m
      | true =>
        simp only [setAt, rowUnrevealed, List.filter_cons, hc] at *
        simpa using ih m

theorem rowUnrevealed_setAt_lt (row : List Cell) (j : ℕ) (hj : j < row.length)
    (h : (getAt default row j).is_revealed = false) :
    rowUnrevealed (setAt row j revealCell) < rowUnrevealed row := by
  induction row generalizing j with
  | nil => exact absurd hj (by simp)
  | cons c t ih =>
    cases j with
    | zero =>
      have hc : c.is_revealed = false := h
      simp only [setAt, rowUnrevealed, List.filter_cons, revealCell, hc]
      simp only [Bool.not_false, Bool.not_true, if_true, if_false]
      simp [Nat.lt_succ_iff]
    | succ m =>
      have hm : m < t.length := by simpa using hj
      have ht : (getAt default t m).is_revealed = false := h
      cases hc : c.is_revealed with
      | false =>
        simp only [setAt, rowUnrevealed, List.filter_cons, hc] at *
        simpa using ih m hm ht
      | true =>
        simp only [setAt, rowUnrevealed, List.filter_cons, hc] at *
        simpa using ih m hm ht

theorem unrevealedCount_set_le (b : Board) (i j : ℕ) :
    unrevealedCount (setAt b i (fun row => setAt row j revealCell))
      ≤ unrevealedCount b := by
  induction b generalizing i with
  | nil => exact le_rfl
  | cons row t ih =>
    cases i with
    | zero =>
      simp only [setAt, unrevealedCount, List.map_cons, List.sum_cons]
      exact Nat.add_le_add_right (rowUnrevealed_setAt_le row j) _
    | succ m =>
      simp only [setAt, unrevealedCount, List.map_cons, List.sum_cons]
      exact Nat.add_le_add_left (ih m) _

theorem unrevealedCount_set_lt (b : Board) (i j : ℕ) (hi : i < b.length)
    (hj : j < (getAt [] b i).length) (h : (cellAt b i j).is_revealed = false) :
    unrevealedCount (setAt b i (fun row => setAt row j revealCell))
      < unrevealedCount b := by
  induction b generalizing i with
  | nil => exact absurd hi (by simp)
  | cons row t ih =>
    cases i with
    | zero =>
      simp only [setAt, unrevealedCount, List.map_cons, List.sum_cons]
      have : rowUnrevealed (setAt row j revealCell) < rowUnrevealed row :=
        rowUnrevealed_setAt_lt row j (by simpa [getAt] using hj)
          (by simpa [cellAt, getAt] using h)
      omega
    | succ m =>
      have hm : m < t.length := by simpa using hi
      simp only [setAt, unrevealedCount, List.map_cons, List.sum_cons]
      have hlt := ih m hm (by simpa [getAt] using hj) (by simpa [cellAt, getAt] using h)
      simp only [unrevealedCount] at hlt
      omega

theorem rowUnrevealed_zero (row : List Cell) (h : rowUnrevealed row = 0) (j : ℕ)
    (hj : j < row.length) : (getAt default row j).is_revealed = true := by
  induction row generalizing j with
  | nil => exact absurd hj (by simp)
  | cons c t ih =>
    cases hc : c.is_revealed with
    | false =>
      exfalso
      simp [rowUnrevealed, List.filter_cons, hc] at h
    | true =>
      simp only [rowUnrevealed, List.filter_cons, hc] at h
      cases j with
      | zero => exact hc
      | succ m =>
        have hm : m < t.length := by simpa using hj
        exact ih (by simpa [rowUnrevealed] using h) m hm

theorem unrevealedCount_zero (b : Board) (h : unrevealedCount b = 0) (i j : ℕ)
    (hi : i < b.length) (hj : j < (getAt [] b i).length) :
    (cellAt b i j).is_revealed = true := by
  induction b generalizing i with
  | nil => exact absurd hi (by simp)
  | cons row t ih =>
    simp only [unrevealedCount, List.map_cons, List.sum_cons, Nat.add_eq_zero] at h
    cases i with
    | zero =>
      exact rowUnrevealed_zero row h.1 j (by simpa [getAt] using hj)
    | succ m =>
      have hm : m < t.length := by simpa using hi
      exact ih h.2 m hm (by simpa [getAt] using hj)

theorem cellAt_setRevealed (b : Board) (x y : ℤ) (i j : ℕ) :
    cellAt (setRevealed b x y) i j
      = if (x.toNat = i ∧ i < b.length) ∧ (y.toNat = j ∧ j < (getAt [] b i).length)
        then revealCell (cellAt b i j) else cellAt b i j := by
  unfold cellAt setRevealed
  rw [getAt_setAt]
  by_cases h1 : x.toNat = i ∧ i < b.length
  · rw [if_pos h1, getAt_setAt]
    by_cases h2 : y.toNat = j ∧ j < (getAt [] b i).length
    · rw [if_pos h2, if_pos ⟨h1, h2⟩]
    · rw [if_neg h2, if_neg (by tauto)]
  · rw [if_neg h1, if_neg (by tauto)]

theorem length_setRevealed (b : Board) (x y : ℤ) :
    (setRevealed b x y).length = b.length :=
  length_setAt b x.toNat _

theorem rowLength_setRevealed (b : Board) (x y : ℤ) (i : ℕ) :
    (getAt [] (setRevealed b x y) i).length = (getAt [] b i).length := by
  unfold setRevealed
  rw [getAt_setAt]
  by_cases h : x.toNat = i ∧ i < b.length
  · rw [if_pos h]
    exact length_setAt _ y.toNat _
  · rw [if_neg h]

/-- Everything one (possibly recursive) reveal step preserves: the board
shape, the unrevealed count does not grow, `is_mine` / `is_flagged` /
`adjacent_mines` are untouched, `is_revealed` only ever becomes true,
flagged cells keep their `is_revealed`, and cells outside the
`grid_size` bounds are untouched. -/
def Stepped (g : ℤ) (b b' : Board) : Prop :=
  b'.length = b.length
  ∧ (∀ i, (getAt [] b' i).length = (getAt [] b i).length)
  ∧ unrevealedCount b' ≤ unrevealedCount b
  ∧ (∀ i j, (cellAt b' i j).is_mine = (cellAt b i j).is_mine
      ∧ (cellAt b' i j).is_flagged = (cellAt b i j).is_flagged
      ∧ (cellAt b' i j).adjacent_mines = (cellAt b i j).adjacent_mines)
  ∧ (∀ i j, (cellAt b i j).is_revealed = true → (cellAt b' i j).is_revealed = true)
  ∧ (∀ i j, (cellAt b i j).is_flagged = true →
      (cellAt b' i j).is_revealed = (cellAt b i j).is_revealed)
  ∧ (∀ (i j : ℕ), ¬ ((i : ℤ) < g ∧ (j : ℤ) < g) → cellAt b' i j = cellAt b i j)

theorem stepped_refl (g : ℤ) (b : Board) : Stepped g b b :=
  ⟨rfl, fun _ => rfl, le_rfl, fun _ _ => ⟨rfl, rfl, rfl⟩, fun _ _ h => h,
    fun _ _ _ => rfl, fun _ _ _ => rfl⟩

theorem stepped_trans (g : ℤ) (a b c : Board) (h1 : Stepped g a b)
    (h2 : Stepped g b c) : Stepped g a c := by
  obtain ⟨l1, r1, c1, f1, m1, fs1, u1⟩ := h1
  obtain ⟨l2, r2, c2, f2, m2, fs2, u2⟩ := h2
  refine ⟨l2.trans l1, fun i => (r2 i).trans (r1 i), c2.trans c1, fun i j => ?_,
    fun i j h => m2 i j (m1 i j h), fun i j h => ?_,
    fun i j h => (u2 i j h).trans (u1 i j h)⟩
  · exact ⟨((f2 i j).1).trans (f1 i j).1, ((f2 i j).2.1).trans (f1 i j).2.1,
      ((f2 i j).2.2).trans (f1 i j).2.2⟩
  · have hfb : (cellAt b i j).is_flagged = true := by rw [(f1 i j).2.1]; exact h
    rw [fs2 i j hfb, fs1 i j h]

theorem stepped_setRevealed (g : ℤ) (b : Board) (x y : ℤ)
    (hb : 0 ≤ x ∧ x < g ∧ 0 ≤ y ∧ y < g)
    (hfl : (getCell b x y).is_flagged = false) :
    Stepped g b (setRevealed b x y) := by
  refine ⟨length_setRevealed b x y, rowLength_setRevealed b x y,
    unrevealedCount_set_le b x.toNat y.toNat, fun i j => ?_, fun i j h => ?_,
    fun i j h => ?_, fun i j h => ?_⟩
  · rw [cellAt_setRevealed]
    by_cases hc : (x.toNat = i ∧ i < b.length) ∧ (y.toNat = j ∧ j < (getAt [] b i).length)
    · rw [if_pos hc]
      exact ⟨rfl, rfl, rfl⟩
    · rw [if_neg hc]
      exact ⟨rfl, rfl, rfl⟩
  · rw [cellAt_setRevealed]
    by_cases hc : (x.toNat = i ∧ i < b.length) ∧ (y.toNat = j ∧ j < (getAt [] b i).length)
    · rw [if_pos hc]
      rfl
    · rw [if_neg hc]
      exact h
  · rw [cellAt_setRevealed]
    by_cases hc : (x.toNat = i ∧ i < b.length) ∧ (y.toNat = j ∧ j < (getAt [] b i).length)
    · exfalso
      have : getCell b x y = cellAt b i j := by
        unfold getCell
        rw [hc.1.1, hc.2.1]
      rw [this, h] at hfl
      exact Bool.true_eq_false ▸ hfl
    · rw [if_neg hc]
  · rw [cellAt_setRevealed]
    by_cases hc : (x.toNat = i ∧ i < b.length) ∧ (y.toNat = j ∧ j < (getAt [] b i).length)
    · exfalso
      apply h
      constructor
      · have : (i : ℤ) = x := by rw [← hc.1.1, Int.toNat_of_nonneg hb.1]
        rw [this]
        exact hb.2.1
      · have : (j : ℤ) = y := by rw [← hc.2.1, Int.toNat_of_nonneg hb.2.2.1]
        rw [this]
        exact hb.2.2.2
    · rw [if_neg hc]

theorem stepped_foldl (g : ℤ) (step : Board → ℤ × ℤ → Board)
    (hstep : ∀ bb d, Stepped g bb (step bb d)) :
    ∀ (ds : List (ℤ × ℤ)) (bb : Board), Stepped g bb (List.foldl step bb ds) := by
  intro ds
  induction ds with
  | nil => intro bb; exact stepped_refl g bb
  | cons d t ih =>
    intro bb
    exact stepped_trans g bb (step bb d) _ (hstep bb d) (ih (step bb d))

theorem stepped_revealFuel (f : ℕ) :
    ∀ (b : Board) (x y g : ℤ), Stepped g b (revealFuel f b x y g) := by
  induction f with
  | zero => intro b x y g; exact stepped_refl g b
  | succ f ih =>
    intro b x y g
    by_cases hground : 0 ≤ x ∧ x < g ∧ 0 ≤ y ∧ y < g
    · by_cases hrf : (getCell b x y).is_revealed = true ∨ (getCell b x y).is_flagged = true
      · have heq : revealFuel (f + 1) b x y g = b := by simp [revealFuel, hground, hrf]
        rw [heq]
        exact stepped_refl g b
      · have hfl : (getCell b x y).is_flagged = false := by
          rcases not_or.mp hrf with ⟨-, h2⟩
          simpa using h2
        by_cases hrec : (getCell b x y).adjacent_mines = 0
            ∧ (getCell b x y).is_mine = false
        · have heq : revealFuel (f + 1) b x y g
              = neighborOffsets.foldl
                  (fun bb d => revealFuel f bb (x + d.1) (y + d.2) g)
                  (setRevealed b x y) := by
            simp [revealFuel, hground, hrf, hrec]
          rw [heq]
          exact stepped_trans g b _ _ (stepped_setRevealed g b x y hground hfl)
            (stepped_foldl g _ (fun bb d => ih bb (x + d.1) (y + d.2) g)
              neighborOffsets (setRevealed b x y))
        · have heq : revealFuel (f + 1) b x y g = setRevealed b x y := by
            simp [revealFuel, hground, hrf, hrec]
          rw [heq]
          exact stepped_setRevealed g b x y hground hfl
    · have heq : revealFuel (f + 1) b x y g = b := by simp [revealFuel, hground]
      rw [heq]
      exact stepped_refl g b

theorem wf_of_stepped (g : ℤ) (b bb : Board) (hst : Stepped g b bb)
    (hwf : WF b g) : WF bb g := by
  obtain ⟨hl, hr, -⟩ := hst
  constructor
  · rw [hl]
    exact hwf.1
  · intro i hi
    rw [hl] at hi
    rw [hr i]
    exact hwf.2 i hi

theorem count_revealFuel_le (f : ℕ) (b : Board) (x y g : ℤ) :
    unrevealedCount (revealFuel f b x y g) ≤ unrevealedCount b :=
  (stepped_revealFuel f b x y g).2.2.1

/-- Any two fuels beyond the number of unrevealed cells give the same
result: the recursion of `reveal_cells` terminates, because every
recursive call strictly decreases the unrevealed count. -/
theorem revealFuel_congr (n : ℕ) :
    ∀ (b : Board) (g : ℤ), unrevealedCount b ≤ n → WF b g →
    ∀ (f1 f2 : ℕ), n < f1 → n < f2 → ∀ (x y : ℤ),
    revealFuel f1 b x y g = revealFuel f2 b x y g := by
  induction n using Nat.strong_induction_on with
  | _ n IH =>
    intro b g hcount hwf f1 f2 hf1 hf2 x y
    obtain ⟨m1, rfl⟩ : ∃ m, f1 = m + 1 := ⟨f1 - 1, by omega⟩
    obtain ⟨m2, rfl⟩ : ∃ m, f2 = m + 1 := ⟨f2 - 1, by omega⟩
    by_cases hground : 0 ≤ x ∧ x < g ∧ 0 ≤ y ∧ y < g
    · by_cases hrf : (getCell b x y).is_revealed = true
          ∨ (getCell b x y).is_flagged = true
      · simp [revealFuel, hground, hrf]
      · have hrev : (getCell b x y).is_revealed = false := by
          rcases not_or.mp hrf with ⟨h1, -⟩
          simpa using h1
        have hfl : (getCell b x y).is_flagged = false := by
          rcases not_or.mp hrf with ⟨-, h2⟩
          simpa using h2
        have hxlt : x.toNat < b.length := by
          rw [hwf.1]
          omega
        have hylt : y.toNat < (getAt [] b x.toNat).length := by
          rw [hwf.2 x.toNat hxlt]
          omega
        have hdec : unrevealedCount (setRevealed b x y) < unrevealedCount b :=
          unrevealedCount_set_lt b x.toNat y.toNat hxlt hylt hrev
        have hwf1 : WF (setRevealed b x y) g :=
          wf_of_stepped g b _ (stepped_setRevealed g b x y hground hfl) hwf
        have hb1count : unrevealedCount (setRevealed b x y) ≤ n - 1 := by omega
        by_cases hrec : (getCell b x y).adjacent_mines = 0
            ∧ (getCell b x y).is_mine = false
        · have heq1 : revealFuel (m1 + 1) b x y g
              = neighborOffsets.foldl
                  (fun bb d => revealFuel m1 bb (x + d.1) (y + d.2) g)
                  (setRevealed b x y) := by
            simp [revealFuel, hground, hrf, hrec]
          have heq2 : revealFuel (m2 + 1) b x y g
              = neighborOffsets.foldl
                  (fun bb d => revealFuel m2 bb (x + d.1) (y + d.2) g)
                  (setRevealed b x y) := by
            simp [revealFuel, hground, hrf, hrec]
          rw [heq1, heq2]
          have hfold : ∀ (ds : List (ℤ × ℤ)) (bb : Board),
              unrevealedCount bb ≤ n - 1 → WF bb g →
              ds.foldl (fun bb d => revealFuel m1 bb (x + d.1) (y + d.2) g) bb
                = ds.foldl (fun bb d => revealFuel m2 bb (x + d.1) (y + d.2) g) bb := by
            intro ds
            induction ds with
            | nil => intro bb _ _; rfl
            | cons d t iht =>
              intro bb hbbc hbbwf
              have hstep : revealFuel m1 bb (x + d.1) (y + d.2) g
                  = revealFuel m2 bb (x + d.1) (y + d.2) g :=
                IH (n - 1) (by omega) bb g hbbc hbbwf m1 m2 (by omega) (by omega)
                  (x + d.1) (y + d.2)
              simp only [List.foldl_cons]
              rw [hstep]
              apply iht
              · exact le_trans (count_revealFuel_le m2 bb (x + d.1) (y + d.2) g) hbbc
              · exact wf_of_stepped g bb _
                  (stepped_revealFuel m2 bb (x + d.1) (y + d.2) g) hbbwf
          exact hfold neighborOffsets (setRevealed b x y) hb1count hwf1
        · simp [revealFuel, hground, hrf, hrec]
    · simp [revealFuel, hground]

theorem revealFuel_eq_reveal_cells (b : Board) (x y g : ℤ) (hwf : WF b g) (f : ℕ)
    (hf : unrevealedCount b < f) :
    revealFuel f b x y g = reveal_cells b x y g :=
  revealFuel_congr (unrevealedCount b) b g le_rfl hwf f (unrevealedCount b + 1)
    hf (by omega) x y

/-- **C3.** `reveal_cells` terminates on every finite (well-formed)
board — any fuel above the unrevealed count computes it; on an in-bounds
unrevealed unflagged cell it sets `is_revealed`, and it recurses into
the eight neighbours exactly when that cell is not a mine and has no
adjacent mines; out of bounds, or on a revealed or flagged cell, it does
nothing; it never reveals a flagged cell and changes no field other than
`is_revealed` anywhere. -/
theorem reveal_cells_spec (b : Board) (x y g : ℤ) (hwf : WF b g) :
    (∀ f, unrevealedCount b < f → revealFuel f b x y g = reveal_cells b x y g)
    ∧ ((0 ≤ x ∧ x < g ∧ 0 ≤ y ∧ y < g) →
        (getCell b x y).is_revealed = false → (getCell b x y).is_flagged = false →
        ((getCell (reveal_cells b x y g) x y).is_revealed = true
        ∧ ((getCell b x y).adjacent_mines = 0 ∧ (getCell b x y).is_mine = false →
            reveal_cells b x y g
              = neighborOffsets.foldl
                  (fun bb d => reveal_cells bb (x + d.1) (y + d.2) g)
                  (setRevealed b x y))
        ∧ (¬ ((getCell b x y).adjacent_mines = 0 ∧ (getCell b x y).is_mine = false) →
            reveal_cells b x y g = setRevealed b x y)))
    ∧ (¬ (0 ≤ x ∧ x < g ∧ 0 ≤ y ∧ y < g) → reveal_cells b x y g = b)
    ∧ ((getCell b x y).is_revealed = true ∨ (getCell b x y).is_flagged = true →
        reveal_cells b x y g = b)
    ∧ (∀ i j : ℕ, (cellAt b i j).is_flagged = true →
        (cellAt (reveal_cells b x y g) i j).is_revealed
          = (cellAt b i j).is_revealed)
    ∧ (∀ i j : ℕ,
        (cellAt (reveal_cells b x y g) i j).is_mine = (cellAt b i j).is_mine
        ∧ (cellAt (reveal_cells b x y g) i j).is_flagged = (cellAt b i j).is_flagged
        ∧ (cellAt (reveal_cells b x y g) i j).adjacent_mines
            = (cellAt b i j).adjacent_mines) := by
  obtain ⟨-, -, -, hfields, hmono, hflag, -⟩ :=
    stepped_revealFuel (unrevealedCount b + 1) b x y g
  refine ⟨fun f hf => revealFuel_eq_reveal_cells b x y g hwf f hf,
    ?_, ?_, ?_, hflag, hfields⟩
  · intro hground hrev hfl
    have hxlt : x.toNat < b.length := by
      rw [hwf.1]
      omega
    have hylt : y.toNat < (getAt [] b x.toNat).length := by
      rw [hwf.2 x.toNat hxlt]
      omega
    have hdec : unrevealedCount (setRevealed b x y) < unrevealedCount b :=
      unrevealedCount_set_lt b x.toNat y.toNat hxlt hylt hrev
    have hwf1 : WF (setRevealed b x y) g :=
      wf_of_stepped g b _ (stepped_setRevealed g b x y hground hfl) hwf
    have hb1rev : (getCell (setRevealed b x y) x y).is_revealed = true := by
      show (cellAt (setRevealed b x y) x.toNat y.toNat).is_revealed = true
      rw [cellAt_setRevealed, if_pos ⟨⟨rfl, hxlt⟩, ⟨rfl, hylt⟩⟩]
      rfl
    by_cases hrec : (getCell b x y).adjacent_mines = 0
        ∧ (getCell b x y).is_mine = false
    · have heqr : reveal_cells b x y g
          = neighborOffsets.foldl
              (fun bb d => revealFuel (unrevealedCount b) bb (x + d.1) (y + d.2) g)
              (setRevealed b x y) := by
        simp [reveal_cells, revealFuel, hground, hrev, hfl, hrec]
      have hfold : ∀ (ds : List (ℤ × ℤ)) (bb : Board),
          unrevealedCount bb < unrevealedCount b → WF bb g →
          ds.foldl (fun bb d => revealFuel (unrevealedCount b) bb (x + d.1) (y + d.2) g) bb
            = ds.foldl (fun bb d => reveal_cells bb (x + d.1) (y + d.2) g) bb := by
        intro ds
        induction ds with
        | nil => intro bb _ _; rfl
        | cons d t iht =>
          intro bb hbbc hbbwf
          have hstep : revealFuel (unrevealedCount b) bb (x + d.1) (y + d.2) g
              = reveal_cells bb (x + d.1) (y + d.2) g :=
            revealFuel_eq_reveal_cells bb (x + d.1) (y + d.2) g hbbwf
              (unrevealedCount b) hbbc
          simp only [List.foldl_cons]
          rw [hstep]
          apply iht
          · exact lt_of_le_of_lt
              (count_revealFuel_le (unrevealedCount bb + 1) bb (x + d.1) (y + d.2) g)
              hbbc
          · exact wf_of_stepped g bb _
              (stepped_revealFuel (unrevealedCount bb + 1) bb (x + d.1) (y + d.2) g)
              hbbwf
      refine ⟨?_, fun _ => ?_, fun hcon => absurd hrec hcon⟩
      · show (cellAt (reveal_cells b x y g) x.toNat y.toNat).is_revealed = true
        rw [heqr]
        have hst := stepped_foldl g
          (fun bb d => revealFuel (unrevealedCount b) bb (x + d.1) (y + d.2) g)
          (fun bb d => stepped_revealFuel (unrevealedCount b) bb (x + d.1) (y + d.2) g)
          neighborOffsets (setRevealed b x y)
        exact hst.2.2.2.2.1 x.toNat y.toNat hb1rev
      · rw [heqr]
        exact hfold neighborOffsets (setRevealed b x y) hdec hwf1
    · have heqr : reveal_cells b x y g = setRevealed b x y := by
        simp [reveal_cells, revealFuel, hground, hrev, hfl, hrec]
      refine ⟨?_, fun hcon => absurd hcon hrec, fun _ => heqr⟩
      rw [heqr]
      exact hb1rev
  · intro h
    simp [reveal_cells, revealFuel, h]
  · intro h
    by_cases hground : 0 ≤ x ∧ x < g ∧ 0 ≤ y ∧ y < g
    · simp [reveal_cells, revealFuel, hground, h]
    · simp [reveal_cells, revealFuel, hground]

/-- A blank 2 × 2 board: no mines, nothing revealed or flagged. -/
def demoCell : Cell := ⟨false, false, false, 0⟩

def demoBoard : Board := [[demoCell, demoCell], [demoCell, demoCell]]

/-- Witness for C3 on the blank 2 × 2 board. -/
theorem reveal_cells_spec_witness :
    (getCell (reveal_cells demoBoard 0 0 2) 0 0).is_revealed = true
    ∧ reveal_cells demoBoard 5 0 2 = demoBoard := by
  have hwf : WF demoBoard 2 := by
    constructor
    · rfl
    · intro i hi
      have h2 : i < 2 := by simpa [demoBoard] using hi
      interval_cases i <;> rfl
  obtain ⟨-, hmain, -, -, -, -⟩ := reveal_cells_spec demoBoard 0 0 2 hwf
  obtain ⟨-, -, hoob, -, -, -⟩ := reveal_cells_spec demoBoard 5 0 2 hwf
  refine ⟨(hmain (by norm_num) (by decide) (by decide)).1, hoob ?_⟩
  intro hcon
  omega

end Mine

/-- **C2 (amended).** Every Snake state reachable through ticks on which
no game-over condition fired has its whole body inside the grid (the
head inserted on a game-over tick can land one cell outside, as the
counterexample shows), and Minesweeper's `reveal_cells` never touches
any cell outside the declared `grid_size` bounds. -/
theorem grid_cells_in_bounds :
    (∀ s, Snake.ReachableAlive s → ∀ c ∈ s.body, Snake.inBounds c)
    ∧ (∀ (b : Mine.Board) (x y g : ℤ) (i j : ℕ),
        ¬ ((i : ℤ) < g ∧ (j : ℤ) < g) →
        Mine.cellAt (Mine.reveal_cells b x y g) i j = Mine.cellAt b i j) := by
  refine ⟨fun s h => Snake.snake_alive_in_bounds s h, fun b x y g i j h => ?_⟩
  exact (Mine.stepped_revealFuel (Mine.unrevealedCount b + 1) b x y g).2.2.2.2.2.2 i j h

/-- Witness for the amended C2: the initial Snake state, and an
out-of-bounds Minesweeper cell untouched by a reveal. -/
theorem grid_cells_in_bounds_witness :
    Snake.inBounds ((15 : ℤ), (15 : ℤ))
    ∧ Mine.cellAt (Mine.reveal_cells Mine.demoBoard 0 0 2) 5 5
        = Mine.cellAt Mine.demoBoard 5 5 := by
  obtain ⟨h1, h2⟩ := grid_cells_in_bounds
  refine ⟨h1 (Snake.snakeInit (fun _ => 0)) (Snake.ReachableAlive.init _)
      ((15 : ℤ), (15 : ℤ)) (by decide), h2 Mine.demoBoard 0 0 2 5 5 (by decide)⟩

/-- **C9.** `generate_bezier_curve` returns exactly `num_points` points;
for `num_points > 1` the `i`-th is the Bézier value at
`t = i / (num_points - 1)`, so the first point is exactly `p0` and the
last exactly `p3`. -/
theorem generate_bezier_curve_samples (p0 p1 p2 p3 : ℚ × ℚ) (n : ℕ) :
    (Galaga.generate_bezier_curve p0 p1 p2 p3 n).length = n
    ∧ (1 < n → ∀ i : ℕ, i < n →
        (Galaga.generate_bezier_curve p0 p1 p2 p3 n)[i]?
          = some (Galaga.bezierPoint p0 p1 p2 p3 ((i : ℚ) / ((n : ℚ) - 1))))
    ∧ (1 < n → (Galaga.generate_bezier_curve p0 p1 p2 p3 n).head? = some p0)
    ∧ (1 < n →
        (Galaga.generate_bezier_curve p0 p1 p2 p3 n).getLast? = some p3) := by
  have hlen : (Galaga.generate_bezier_curve p0 p1 p2 p3 n).length = n := by
    unfold Galaga.generate_bezier_curve
    rw [List.length_map, List.length_range]
  have hget : ∀ hn : 1 < n, ∀ i : ℕ, i < n →
      (Galaga.generate_bezier_curve p0 p1 p2 p3 n)[i]?
        = some (Galaga.bezierPoint p0 p1 p2 p3 ((i : ℚ) / ((n : ℚ) - 1))) := by
    intro hn i hi
    unfold Galaga.generate_bezier_curve
    rw [List.getElem?_map, List.getElem?_range hi]
    simp only [Option.map_some', if_pos hn]
  refine ⟨hlen, hget, ?_, ?_⟩
  · intro hn
    have h0 := hget hn 0 (by omega)
    rw [List.head?_eq_getElem?, h0]
    norm_num [Galaga.bezierPoint_zero]
  · intro hn
    have hlast := hget hn (n - 1) (by omega)
    rw [List.getLast?_eq_getElem?, hlen, hlast]
    have hc : ((n - 1 : ℕ) : ℚ) = (n : ℚ) - 1 := by
      push_cast [Nat.cast_sub (by omega : 1 ≤ n)]
      ring
    have hne : ((n : ℚ) - 1) ≠ 0 := by
      have : (1 : ℚ) < (n : ℚ) := by exact_mod_cast hn
      linarith
    rw [hc, div_self hne, Galaga.bezierPoint_one]

/-- Witness for C9 with four concrete control points and two samples. -/
theorem generate_bezier_curve_samples_witness :
    (Galaga.generate_bezier_curve ((0 : ℚ), (0 : ℚ)) (1, 2) (3, 4) (5, 6) 2).length = 2
    ∧ (Galaga.generate_bezier_curve ((0 : ℚ), (0 : ℚ)) (1, 2) (3, 4) (5, 6) 2).head?
        = some (0, 0)
    ∧ (Galaga.generate_bezier_curve ((0 : ℚ), (0 : ℚ)) (1, 2) (3, 4) (5, 6) 2).getLast?
        = some (5, 6) := by
  obtain ⟨h1, -, h3, h4⟩ :=
    generate_bezier_curve_samples ((0 : ℚ), (0 : ℚ)) (1, 2) (3, 4) (5, 6) 2
  exact ⟨h1, h3 (by norm_num), h4 (by norm_num)⟩

/-- **C7.** Both Pong paddles end every frame clamped to
`0 ≤ y ≤ SCREEN_HEIGHT - PADDLE_HEIGHT`, and Galaga's `Player.move(dx)`
leaves the player rectangle entirely inside the screen rectangle, for
every displacement `dx`. -/
theorem clamped_positions_stay_on_screen (y ay ballCenterY : ℤ)
    (keyUp keyDown : Bool) (p : Galaga.Player) (dx : ℤ)
    (hw : p.rect.w = Galaga.PLAYER_SIZE) (hh : p.rect.h = Galaga.PLAYER_SIZE) :
    (0 ≤ Pong.playerPaddleFrameY y keyUp keyDown
      ∧ Pong.playerPaddleFrameY y keyUp keyDown
          ≤ Pong.SCREEN_HEIGHT - Pong.PADDLE_HEIGHT)
    ∧ (0 ≤ Pong.aiPaddleFrameY ay ballCenterY
      ∧ Pong.aiPaddleFrameY ay ballCenterY
          ≤ Pong.SCREEN_HEIGHT - Pong.PADDLE_HEIGHT)
    ∧ (0 ≤ (p.move dx).rect.x
      ∧ (p.move dx).rect.x + (p.move dx).rect.w ≤ Galaga.SCREEN_WIDTH
      ∧ 0 ≤ (p.move dx).rect.y
      ∧ (p.move dx).rect.y + (p.move dx).rect.h ≤ Galaga.SCREEN_HEIGHT) := by
  refine ⟨⟨le_max_left _ _, max_le (by decide) (min_le_right _ _)⟩,
    ⟨le_max_left _ _, max_le (by decide) (min_le_right _ _)⟩, ?_⟩
  simp only [Galaga.Player.move, Galaga.Rect.clampIn, Galaga.clampAxis, hw, hh,
    Galaga.SCREEN_WIDTH, Galaga.SCREEN_HEIGHT, Galaga.PLAYER_SIZE]
  split_ifs <;> omega

/-- Witness for C7 at a concrete player, frame inputs and displacement. -/
theorem clamped_positions_stay_on_screen_witness :
    (0 ≤ Pong.playerPaddleFrameY 599 false true
      ∧ Pong.playerPaddleFrameY 599 false true
          ≤ Pong.SCREEN_HEIGHT - Pong.PADDLE_HEIGHT)
    ∧ (0 ≤ (Galaga.Player.init.move 100000).rect.x
      ∧ (Galaga.Player.init.move 100000).rect.x
          + (Galaga.Player.init.move 100000).rect.w ≤ Galaga.SCREEN_WIDTH) := by
  obtain ⟨⟨h1, h2⟩, -, h3, h4, -⟩ :=
    clamped_positions_stay_on_screen 599 0 0 false true Galaga.Player.init 100000
      rfl rfl
  exact ⟨⟨h1, h2⟩, h3, h4⟩

/-- **C8.** Galaga's `play_again` branch rebuilds exactly the state a
fresh game starts with (a fresh `Player` with score 0, lives 3, no dual
fighter, not captured, at the respawn rectangle; no captured fighters;
level 1), and re-entering Snake's `game_loop` reruns the same
initialisation as the first game, independent of any previous state. -/
theorem restart_resets_to_initial_state :
    (∀ prev, Galaga.playAgainState prev = Galaga.newGameState)
    ∧ Galaga.Player.init.score = 0
    ∧ Galaga.Player.init.lives = 3
    ∧ Galaga.Player.init.dual_fighter = false
    ∧ Galaga.Player.init.is_captured = false
    ∧ Galaga.Player.init.rect = Galaga.Player.respawnRect
    ∧ Galaga.newGameState.captured_fighters = []
    ∧ Galaga.newGameState.current_level = 1
    ∧ (∀ prev rng, Snake.snakeRestart prev rng = Snake.snakeInit rng)
    ∧ (∀ rng : ℕ → ℕ,
        (Snake.snakeInit rng).pos = (Snake.GRID_WIDTH / 2, Snake.GRID_HEIGHT / 2)
        ∧ (Snake.snakeInit rng).body
            = [(Snake.GRID_WIDTH / 2, Snake.GRID_HEIGHT / 2),
               (Snake.GRID_WIDTH / 2 - 1, Snake.GRID_HEIGHT / 2),
               (Snake.GRID_WIDTH / 2 - 2, Snake.GRID_HEIGHT / 2)]
        ∧ (Snake.snakeInit rng).dir = Snake.Dir.RIGHT
        ∧ (Snake.snakeInit rng).score = 0
        ∧ (Snake.snakeInit rng).food
            = (Snake.randrange 1 Snake.GRID_WIDTH (rng 0),
               Snake.randrange 1 Snake.GRID_HEIGHT (rng 1))) := by
  exact ⟨fun prev => rfl, rfl, rfl, rfl, rfl, rfl, rfl, rfl,
    fun prev rng => rfl, fun rng => ⟨rfl, rfl, rfl, rfl, rfl⟩⟩

end Arcade
